import Mathlib

/-!
A shallow embedding, in Lean 4, of the arithmetic core of the AP_Float
library (src/include/AP/BitArray.hpp and src/include/AP/Float.hpp).

A `BitArray` is modelled as the list of its 32-bit limbs (least
significant first); every store into a limb takes `% 2^32` exactly where
the C++ code stores a truncated `uint32_t`.  Loops of the C++ code become
structural recursions; loops whose iteration count the code bounds only
through its data carry an explicit fuel argument chosen to dominate every
run the theorems below evaluate.
-/

set_option maxRecDepth 100000

namespace AP

/-- 2^32, the modulus of one BLOCK (`uint32_t`) of storage. -/
def BLOCK_MOD : Nat := 4294967296

/-- `BitArray`: dynamic size integer, little-endian list of 32-bit limbs
(`std::vector<BLOCK> mBits{0U}`, never empty in constructed values). -/
structure BitArray where
  bits : List Nat
deriving DecidableEq, Repr

/-- Numeric value of the limb sequence: the sum of `bits[i] * 2^(32*i)`. -/
def baVal (b : BitArray) : Nat :=
  b.bits.foldr (fun limb acc => limb + BLOCK_MOD * acc) 0

/-- The `while(tmp != 0) { ++result; tmp >>= 1; }` scan of
`log2(const BitArray&)`.  Fuel 64 dominates every 32-bit limb. -/
def blenGo : Nat → Nat → Nat
  | 0, _ => 0
  | _, 0 => 0
  | fuel + 1, t => blenGo fuel (t / 2) + 1

/-- Bit length of one limb (the scan above with its fuel applied). -/
def blen (t : Nat) : Nat := blenGo 64 t

/-- `log2(const BitArray&)`: `(size-1)*32` plus the bit length of the top
limb, i.e. the 1-based position of the highest set bit (`log2 1 = 1`). -/
def log2BA (b : BitArray) : Nat :=
  (b.bits.length - 1) * 32 + blen (b.bits.getLastD 0)

/-- `reduce()`: drop trailing (most significant) zero limbs, always
keeping at least one limb. -/
def reduceList (l : List Nat) : List Nat :=
  match (l.reverse.dropWhile (· == 0)).reverse with
  | [] => [0]
  | r => r

/-- `reduce()` packaged on `BitArray`. -/
def reduceBA (b : BitArray) : BitArray := ⟨reduceList b.bits⟩

/-- The limb loop of `operator<=>(const BitArray&)` for equal sizes,
with both lists already reversed (most significant limb first). -/
def cmpRev : List Nat → List Nat → Ordering
  | x :: xs, y :: ys =>
    if x < y then .lt else if y < x then .gt else cmpRev xs ys
  | _, _ => .eq

/-- `operator<=>(const BitArray&)`: raw sizes decide first, then limbs
from the most significant end. -/
def cmpBA (a b : BitArray) : Ordering :=
  if a.bits.length < b.bits.length then .lt
  else if b.bits.length < a.bits.length then .gt
  else cmpRev a.bits.reverse b.bits.reverse

/-- `operator<=>(uint32_t)`: more than one limb is greater, zero limbs is
less, one limb compares directly. -/
def cmpU32 (a : BitArray) (v : Nat) : Ordering :=
  if 1 < a.bits.length then .gt
  else if a.bits.length = 0 then .lt
  else
    if a.bits.headD 0 < v then .lt
    else if v < a.bits.headD 0 then .gt
    else .eq

/-- First loop of `operator+=(const BitArray&)`: limb-wise 64-bit sums
over the common prefix; returns the rewritten prefix and the carry out. -/
def addMin : List Nat → List Nat → Nat → List Nat × Nat
  | x :: xs, y :: ys, c =>
    let s := x + y + c
    let (r, c') := addMin xs ys (s / BLOCK_MOD)
    (s % BLOCK_MOD :: r, c')
  | _, _, c => ([], c)

/-- Second loop of `operator+=(const BitArray&)`: the extra limbs of a
longer right operand, still propagating carry, pushed onto the result. -/
def pushRest : List Nat → Nat → List Nat × Nat
  | [], c => ([], c)
  | y :: ys, c =>
    let s := y + c
    let (r, c') := pushRest ys (s / BLOCK_MOD)
    (s % BLOCK_MOD :: r, c')

/-- Third loop of `operator+=`: a remaining carry is added into the next
existing limb with a bare 32-bit `+=` — any carry OUT of that limb is
dropped, because the code then right-shifts its own carry variable to
zero — or pushed as a new limb when no limb is left. -/
def carryTail : List Nat → Nat → List Nat
  | rest, 0 => rest
  | [], c => [c]
  | r :: rs, c => (r + c) % BLOCK_MOD :: rs

/-- Carry loop of `operator<<=`: each limb shifted left by `r` with the
previous accumulator's high word ORed in (plain addition, since the low
`r` bits of the shifted limb are zero). -/
def shlLoop : List Nat → Nat → Nat → List Nat × Nat
  | [], _, c => ([], c)
  | x :: xs, r, c =>
    let s := x * 2 ^ r + c
    let (rest, c') := shlLoop xs r (s / BLOCK_MOD)
    (s % BLOCK_MOD :: rest, c')

/-- `operator<<=(uint32_t)`: prepend `n/32` zero limbs, shift by `n%32`
with carry, push a final carry limb, reduce. -/
def shlBA (a : BitArray) (n : Nat) : BitArray :=
  let l1 := List.replicate (n / 32) 0 ++ a.bits
  let (l2, c) := shlLoop l1 (n % 32) 0
  reduceBA ⟨if c ≠ 0 then l2 ++ [c % BLOCK_MOD] else l2⟩

/-- Limb loop of `operator>>=` for the sub-limb shift `r ∈ [1,31]`. -/
def shrLoop : List Nat → Nat → List Nat
  | [], _ => []
  | [x], r => [x / 2 ^ r]
  | x :: y :: xs, r => (x / 2 ^ r + y % 2 ^ r * 2 ^ (32 - r)) :: shrLoop (y :: xs) r

/-- `operator>>=(uint32_t)`: drop `n/32` low limbs (or zero out all limbs
when `n/32 ≥ size`, keeping the length), apply the sub-limb shift, reduce. -/
def shrBA (a : BitArray) (n : Nat) : BitArray :=
  let blocks := n / 32
  let l1 :=
    if blocks = 0 then a.bits
    else if a.bits.length ≤ blocks then List.replicate a.bits.length 0
    else a.bits.drop blocks
  let r := n % 32
  reduceBA ⟨if r = 0 then l1 else shrLoop l1 r⟩

/-- `operator+=(const BitArray&)`: equal values short-circuit to a left
shift by one; otherwise the three carry loops above.  (No reduce.) -/
def addBA (a b : BitArray) : BitArray :=
  if cmpBA a b = .eq then shlBA a 1
  else
    let n := min a.bits.length b.bits.length
    let (pre, c1) := addMin a.bits b.bits 0
    let (mid, c2) := pushRest (b.bits.drop n) c1
    ⟨pre ++ mid ++ carryTail (a.bits.drop n) c2⟩

/-- `operator+=(uint32_t)`: add into limb 0; a carry goes into limb 1
with a bare 32-bit `+=` (carry out of limb 1 is dropped, exactly as in
the third loop of the BitArray overload), or becomes a new limb. -/
def addU32 (a : BitArray) (v : Nat) : BitArray :=
  match a.bits with
  | [] => ⟨[]⟩
  | x :: xs =>
    let s := x + v
    let c := s / BLOCK_MOD
    if c = 0 then ⟨s % BLOCK_MOD :: xs⟩
    else
      match xs with
      | [] => ⟨[s % BLOCK_MOD, c]⟩
      | y :: ys => ⟨s % BLOCK_MOD :: (y + c) % BLOCK_MOD :: ys⟩

/-- `setBit(size_t, uint8_t)`.  When the bit lies beyond the stored limbs
the code grows the vector by inserting zero limbs AT THE FRONT
(`mBits.insert(mBits.begin(), …)`), shifting existing limbs up; then
`|=`/`&= ~` on the addressed limb (arithmetic form, limbs < 2^32). -/
def setBitBA (a : BitArray) (index : Nat) (v : Bool) : BitArray :=
  let blocks := index / 32
  let i := index % 32
  let l := if a.bits.length ≤ blocks
           then List.replicate (blocks - a.bits.length + 1) 0 ++ a.bits
           else a.bits
  let x := l.getD blocks 0
  let x' := if v then (if x / 2 ^ i % 2 = 1 then x else x + 2 ^ i)
            else (if x / 2 ^ i % 2 = 1 then x - 2 ^ i else x)
  ⟨l.set blocks x'⟩

/-- `invert(uint32_t)`: complement the whole limbs below `digits/32`
(growing with 0xFFFFFFFF limbs as needed), then complement the low
`digits%32` bits of the next limb, clearing its upper bits (the code
shifts the limb to the top, complements with 32-bit truncation, and
shifts back down). -/
def invertBA (a : BitArray) (digits : Nat) : BitArray :=
  let blocks := digits / 32
  let n := a.bits.length
  let l1 := (a.bits.take blocks).map (fun x => BLOCK_MOD - 1 - x)
    ++ List.replicate (blocks - n) (BLOCK_MOD - 1)
    ++ a.bits.drop blocks
  let r := digits % 32
  if r = 0 then ⟨l1⟩
  else if blocks < l1.length then
    let x := l1.getD blocks 0
    ⟨l1.set blocks ((BLOCK_MOD - 1 - x * 2 ^ (32 - r) % BLOCK_MOD) / 2 ^ (32 - r))⟩
  else ⟨l1 ++ [2 ^ r - 1]⟩

/-- `operator-=(const BitArray&)`: absolute difference through
variable-width two's complement — invert `log2(larger)` bits of the
smaller, add it, add 1, and clear the carry-out bit when the bit length
grew; reduce in every branch. -/
def subBA (a b : BitArray) : BitArray :=
  let res :=
    if cmpBA a b = .eq then (⟨a.bits.map (fun _ => 0)⟩ : BitArray)
    else if cmpU32 a 0 = .eq then b
    else if cmpU32 b 0 ≠ .eq then
      let big := if cmpBA b a = .gt then b else a
      let small := if cmpBA b a = .gt then a else b
      let bits := log2BA big
      let s1 := addBA big (invertBA small bits)
      let s2 := addU32 s1 1
      let nb := log2BA s2
      if bits < nb then setBitBA s2 (nb - 1) false else s2
    else a
  reduceBA res

/-- The de Bruijn multiply-and-lookup table of `rightAlign()`. -/
def deBruijnTable : List Nat :=
  [0, 1, 28, 2, 29, 14, 24, 3, 30, 22, 20, 15, 25, 17, 4, 8,
   31, 27, 13, 23, 21, 19, 16, 7, 26, 12, 18, 6, 11, 5, 10, 9]

/-- `mBits.at(0) & -mBits.at(0)` on a 32-bit limb: the lowest set bit as
a power of two (0 for a zero limb).  Fuel 33 dominates 32-bit limbs. -/
def lowBitGo : Nat → Nat → Nat
  | 0, _ => 0
  | _, 0 => 0
  | fuel + 1, x => if x % 2 = 1 then 1 else 2 * lowBitGo fuel (x / 2)

/-- The lowest-set-bit extraction with its fuel applied. -/
def lowBit (x : Nat) : Nat := lowBitGo 33 x

/-- `rightAlign()`: shift out low zero limbs, then shift by the de Bruijn
position of the lowest set bit of limb 0; returns the total shift. -/
def rightAlignBA (a : BitArray) : BitArray × Nat :=
  if cmpU32 a 0 = .eq then (a, 0)
  else
    let empty := (a.bits.takeWhile (· == 0)).length
    let a1 := shrBA a (empty * 32)
    let b0 := a1.bits.headD 0
    let sh := deBruijnTable.getD (lowBit b0 * 0x077CB531 % BLOCK_MOD / 2 ^ 27) 0
    (reduceBA (shrBA a1 sh), sh + empty * 32)

/-- Loop body of `operator*=(const BitArray&)`: walk the bits of `other`
up to `log2(other)`, deferring shifts of `tmp` through `count`.  The fuel
is instantiated with the loop bound itself, so it never runs out. -/
def mulLoop : Nat → BitArray → BitArray → BitArray → Nat → Nat → BitArray
  | 0, _, acc, _, _, _ => acc
  | fuel + 1, tmp, acc, other, i, count =>
    if i < log2BA other then
      let block := other.bits.getD (i / 32) 0
      if block / 2 ^ (i % 32) % 2 = 1 then
        let tmp' := shlBA tmp count
        mulLoop fuel tmp' (addBA acc tmp') other (i + 1) 1
      else mulLoop fuel tmp acc other (i + 1) (count + 1)
    else acc

/-- `operator*=(const BitArray&)`: copy-construct `tmp` (which reduces),
zero-fill the accumulator keeping its length, run the shift-and-add loop,
reduce. -/
def mulBA (a b : BitArray) : BitArray :=
  reduceBA (mulLoop (log2BA b + 1) (reduceBA a) ⟨a.bits.map (fun _ => 0)⟩ b 0 0)

/-- Inner loop of `divide`: while `self ≥ den`, find the stride `i` by
doubling and bit-length difference, set bit `i` of `result`, subtract
`den·2^i`, restore `den`.  The fuel (consumed once per subtraction)
dominates every run evaluated in this file. -/
def divInner : Nat → BitArray → BitArray → BitArray → BitArray × BitArray × BitArray
  | 0, self, den, result => (self, den, result)
  | fuel + 1, self, den, result =>
    if cmpBA self den ≠ .lt then
      let den1 := shlBA den 1
      let (i, den2) :=
        if cmpBA self den1 ≠ .lt then
          let j := log2BA self - log2BA den1
          let d2 := shlBA den1 j
          if cmpBA self d2 ≠ .lt then (j + 1, shlBA d2 1) else (j, d2)
        else (0, den1)
      let den3 := shrBA den2 1
      let result' := setBitBA result i true
      let self' := subBA self den3
      divInner fuel self' (shrBA den3 i) result'
    else (self, den, result)

/-- Outer loop of `divide`: while `self ≠ 0` and `shift ≤ accuracy`, run
the inner loop, then `++shift; self <<= 1`.  `shift` grows by one per
pass, so fuel `accuracy + 2` can never be exhausted. -/
def divOuter : Nat → BitArray → BitArray → BitArray → Nat → Nat → BitArray
  | 0, _, _, result, _, _ => result
  | fuel + 1, self, den, result, shift, accuracy =>
    if cmpU32 self 0 ≠ .eq ∧ shift ≤ accuracy then
      let (self', den', result') := divInner 200 self den result
      divOuter fuel (shlBA self' 1) den' result' (shift + 1) accuracy
    else result

/-- `divide(const BitArray&, uint32_t)`: pre-shift `self` by `accuracy`
bits, run the loops, replace `self` with `result`, return `accuracy`. -/
def divideBA (a den : BitArray) (accuracy : Nat) : BitArray × Nat :=
  (divOuter (accuracy + 2) (shlBA a accuracy) (reduceBA den) ⟨[0]⟩ 0 accuracy, accuracy)

/-! ## The Float layer (src/include/AP/Float.hpp) -/

/-- `DIVISION_ACCURACY = 50U`. -/
def DIVISION_ACCURACY : Nat := 50

/-- `Float::STATE`. -/
inductive FState
  | NORMAL
  | INF
  | ERROR
deriving DecidableEq, Repr

/-- The `Float` record: BitArray mantissa, signed binary shift, sign bit
(`POSITIVE = false`, `NEGATIVE = true`), state tag.  The C++ shift is an
`int32_t`; it is modelled as `Int`, exact whenever (as in everything
evaluated here) no intermediate leaves the int32 range. -/
structure FloatAP where
  mantissa : BitArray
  shift : Int
  sign : Bool
  state : FState
deriving DecidableEq, Repr

/-- `Float::POSITIVE`. -/
def POSITIVE : Bool := false

/-- `Float::NEGATIVE`. -/
def NEGATIVE : Bool := true

/-- `Float::clear()`: zero mantissa, zero shift, NORMAL; the sign bit is
not touched. -/
def clearF (f : FloatAP) : FloatAP := ⟨⟨[0]⟩, 0, f.sign, .NORMAL⟩

/-- `Float::shiftToExponent()`: `log2(mantissa) - shift - 1` (computed in
C++ through uint64 then truncated to int32; exact in the int32 range). -/
def shiftToExponent (f : FloatAP) : Int :=
  (log2BA f.mantissa : Int) - f.shift - 1

/-- `Float::operator==`: false when either side is ERROR, otherwise all
four fields must agree (the mantissas through the BitArray comparison). -/
def eqF (a b : FloatAP) : Bool :=
  if a.state = .ERROR ∨ b.state = .ERROR then false
  else decide (a.state = b.state ∧ a.sign = b.sign ∧ a.shift = b.shift ∧
    cmpBA a.mantissa b.mantissa = .eq)

/-- The result type of `Float::operator<=>` (`std::partial_ordering`). -/
inductive POrd
  | lt
  | eq
  | gt
  | unordered
deriving DecidableEq, Repr

/-- Conversion of the BitArray `std::strong_ordering` result. -/
def ordPOrd : Ordering → POrd
  | .lt => .lt
  | .eq => .eq
  | .gt => .gt

/-- `Float::operator<=>(const Float&)`: unordered on ERROR; different
signs decide; same sign compares binary-point exponents (decision
flipped when negative); the final fall-through compares the raw
mantissas (not flipped for sign). -/
def cmpF (a b : FloatAP) : POrd :=
  if a.state = .ERROR ∨ b.state = .ERROR then .unordered
  else if a.sign = NEGATIVE ∧ b.sign = POSITIVE then .lt
  else if a.sign = POSITIVE ∧ b.sign = NEGATIVE then .gt
  else
    let ea := shiftToExponent a
    let eb := shiftToExponent b
    if a.sign = POSITIVE then
      if ea < eb then .lt
      else if eb < ea then .gt
      else ordPOrd (cmpBA a.mantissa b.mantissa)
    else
      if ea < eb then .gt
      else if eb < ea then .lt
      else ordPOrd (cmpBA a.mantissa b.mantissa)

/-- The zero BitArray `[0]`. -/
def zeroBA : BitArray := ⟨[0]⟩

/-- `Float(0.0)`: positive zero, as built by the double constructor. -/
def posZeroF : FloatAP := ⟨zeroBA, 0, POSITIVE, .NORMAL⟩

/-- `Float(-0.0)`: negative zero, as built by the double constructor. -/
def negZeroF : FloatAP := ⟨zeroBA, 0, NEGATIVE, .NORMAL⟩

/-- The test `(x == 0.0) || (x == -0.0)` used by `operator*=` and
`operator/=` for their zero special cases. -/
def isZeroF (f : FloatAP) : Bool := eqF f posZeroF || eqF f negZeroF

/-- `Float::operator+=(Float&&)`: ERROR propagates; INF absorbs or turns
into ERROR on opposite-sign INF; otherwise align the mantissas to the
larger shift, add (same sign) or take the absolute difference with the
sign of the larger magnitude (different signs), then right-align. -/
def addF (a b : FloatAP) : FloatAP :=
  if a.state = .ERROR ∨ b.state = .ERROR then { clearF a with state := .ERROR }
  else if a.state = .INF then
    if b.state = .INF ∧ a.sign ≠ b.sign then { clearF a with state := .ERROR } else a
  else if b.state = .INF then b
  else
    let (ma, mb, sh) :=
      if b.shift < a.shift then (a.mantissa, shlBA b.mantissa (a.shift - b.shift).toNat, a.shift)
      else if a.shift < b.shift then (shlBA a.mantissa (b.shift - a.shift).toNat, b.mantissa, b.shift)
      else (a.mantissa, b.mantissa, a.shift)
    if a.sign = b.sign then
      let (m2, ra) := rightAlignBA (addBA ma mb)
      ⟨m2, sh - ra, a.sign, a.state⟩
    else
      let sign' :=
        if a.sign = NEGATIVE ∧ b.sign = POSITIVE then
          (if cmpBA mb ma = .gt then POSITIVE else a.sign)
        else
          (if cmpBA mb ma = .gt then NEGATIVE else a.sign)
      let (m2, ra) := rightAlignBA (subBA ma mb)
      ⟨m2, sh - ra, sign', a.state⟩

/-- `Float::operator-=(Float&&)`: flip the right operand's sign, add. -/
def subF (a b : FloatAP) : FloatAP := addF a { b with sign := !b.sign }

/-- `Float::operator*=(const Float&)`: ERROR propagates; `∞ · 0` is
ERROR; otherwise XOR the signs, and either multiply mantissas, add
shifts and right-align, or clear to INF when an operand is INF. -/
def mulF (a b : FloatAP) : FloatAP :=
  if a.state = .ERROR ∨ b.state = .ERROR then { clearF a with state := .ERROR }
  else if (a.state = .INF ∧ isZeroF b = true) ∨ (isZeroF a = true ∧ b.state = .INF) then
    { clearF a with state := .ERROR }
  else
    let sign' := xor a.sign b.sign
    if a.state ≠ .INF ∧ b.state ≠ .INF then
      let (m2, ra) := rightAlignBA (mulBA a.mantissa b.mantissa)
      ⟨m2, a.shift + b.shift - ra, sign', a.state⟩
    else { clearF a with sign := sign', state := .INF }

/-- `Float::operator/=(Float&&)`: ERROR propagates; `∞ / ∞` and `0 / 0`
are ERROR; otherwise XOR the signs, `x / 0` clears to INF, `x / ∞`
assigns `Float(0.0)` (positive zero), a non-INF numerator divides the
mantissas with `DIVISION_ACCURACY` extra bits and right-aligns, and an
INF numerator just keeps its state with the new sign. -/
def divF (a b : FloatAP) : FloatAP :=
  if a.state = .ERROR ∨ b.state = .ERROR then { clearF a with state := .ERROR }
  else if a.state = .INF ∧ b.state = .INF then { clearF a with state := .ERROR }
  else if isZeroF b = true ∧ isZeroF a = true then { clearF a with state := .ERROR }
  else
    let sign' := xor a.sign b.sign
    if isZeroF b = true then { clearF a with sign := sign', state := .INF }
    else if b.state = .INF then posZeroF
    else if a.state ≠ .INF then
      let sh1 := a.shift - b.shift
      if cmpBA b.mantissa ⟨[1]⟩ ≠ .eq then
        let (m1, acc) := divideBA a.mantissa b.mantissa DIVISION_ACCURACY
        let (m2, ra) := rightAlignBA m1
        ⟨m2, sh1 + (acc : Int) - ra, sign', a.state⟩
      else ⟨a.mantissa, sh1, sign', a.state⟩
    else { a with sign := sign' }

/-- `abs(Float)`: the copy has its sign set to POSITIVE, nothing else. -/
def absF (f : FloatAP) : FloatAP := { f with sign := POSITIVE }

/-- The exact rational value `(-1)^sign * mantissa * 2^(-shift)` of a
NORMAL value. -/
def fval (f : FloatAP) : ℚ :=
  (if f.sign then -1 else 1) * (baVal f.mantissa : ℚ) * (2 : ℚ) ^ (-f.shift)

/-- A zero with a chosen sign bit (mantissa `[0]`, shift 0, NORMAL). -/
def zeroOfSign (s : Bool) : FloatAP := ⟨zeroBA, 0, s, .NORMAL⟩

/-- The Float value 1 (mantissa `[1]`, shift 0). -/
def fOne : FloatAP := ⟨⟨[1]⟩, 0, POSITIVE, .NORMAL⟩

/-- The Float value 7 (mantissa `[7]`, shift 0). -/
def fSeven : FloatAP := ⟨⟨[7]⟩, 0, POSITIVE, .NORMAL⟩

/-- Positive infinity. -/
def fInfP : FloatAP := ⟨zeroBA, 0, POSITIVE, .INF⟩

/-- The Float value 2^64 - 1 (an odd, hence right-aligned, mantissa of
two full limbs), as built by the uint64 constructor. -/
def fMax64 : FloatAP := ⟨⟨[4294967295, 4294967295]⟩, 0, POSITIVE, .NORMAL⟩

/-- The Float value -1.25 = -(5 / 2^2): mantissa 5, shift 2, negative. -/
def fNeg125 : FloatAP := ⟨⟨[5]⟩, 2, NEGATIVE, .NORMAL⟩

/-- The Float value -1.75 = -(7 / 2^2): mantissa 7, shift 2, negative. -/
def fNeg175 : FloatAP := ⟨⟨[7]⟩, 2, NEGATIVE, .NORMAL⟩

/-- The Float value 1.5 = 3 / 2^1: mantissa 3, shift 1. -/
def fOneHalf3 : FloatAP := ⟨⟨[3]⟩, 1, POSITIVE, .NORMAL⟩

/-! ## The decimal-string constructor (Float(std::string_view)) -/

/-- `CONSTRUCTOR_MAX_ITERATIONS = 20U`. -/
def CONSTRUCTOR_MAX_ITERATIONS : Nat := 20

/-- `std::isdigit` restricted to the characters that can occur here. -/
def isDigitChar (c : Char) : Bool := 48 ≤ c.toNat && c.toNat ≤ 57

/-- `c - '0'` cast to `uint32_t` (wraps below zero for non-digits such
as '+' or '-'). -/
def charVal (c : Char) : Nat := (c.toNat + BLOCK_MOD - 48) % BLOCK_MOD

/-- `std::string_view::find` of one character: first occurrence index. -/
def findChar : List Char → Char → Option Nat
  | [], _ => none
  | x :: xs, c => if x = c then some 0 else (findChar xs c).map (· + 1)

/-- Loop of `operator*=(uint32_t)`: the same shift-and-add as the
BitArray overload over the bits of `v`, whose count the code takes from
the host `std::log2(v)` (inclusive bound, i.e. the bit length of v). -/
def mulU32Loop : Nat → BitArray → BitArray → Nat → Nat → Nat → BitArray
  | 0, _, acc, _, _, _ => acc
  | fuel + 1, tmp, acc, v, i, count =>
    if i < blen v then
      if v / 2 ^ i % 2 = 1 then
        let tmp' := shlBA tmp count
        mulU32Loop fuel tmp' (addBA acc tmp') v (i + 1) 1
      else mulU32Loop fuel tmp acc v (i + 1) (count + 1)
    else acc

/-- `operator*=(uint32_t)`: copy-construct `tmp` (which reduces),
zero-fill the accumulator keeping its length, run the loop, reduce. -/
def mulU32 (a : BitArray) (v : Nat) : BitArray :=
  reduceBA (mulU32Loop (blen v + 1) (reduceBA a) ⟨a.bits.map (fun _ => 0)⟩ v 0 0)

/-- The `for(i = digit_pos; i >= 9; i -= 9) tmp *= 1000000000U;` passes
of the BitArray string constructor, `k = digit_pos / 9` of them. -/
def mulPow9s : Nat → BitArray → BitArray
  | 0, b => b
  | k + 1, b => mulPow9s k (mulU32 b 1000000000)

/-- The large-digit loop of `BitArray(std::string_view)`: every non-zero
digit is written into limb 0 of the zero-filled `tmp` (whose length
persists between iterations, tracked by `tmpLen`), multiplied up to its
decimal position by the `10^9` passes and one `*= 10^(pos % 9)` (the
host `std::pow` is exact for these exponents), and added in. -/
def largeLoop : List Char → Nat → BitArray → Nat → BitArray
  | [], _, acc, _ => acc
  | c :: cs, pos, acc, tmpLen =>
    if c ≠ '0' then
      let tmp0 : BitArray := ⟨charVal c :: List.replicate (tmpLen - 1) 0⟩
      let tmp1 := mulU32 (mulPow9s (pos / 9) tmp0) (10 ^ (pos % 9))
      largeLoop cs (pos - 1) (addBA acc tmp1) tmp1.bits.length
    else largeLoop cs (pos - 1) acc tmpLen

/-- The small-digit loop of `BitArray(std::string_view)`: every non-zero
digit is added in as the 32-bit product `uint32(c - '0') * uint32(10^pos)`. -/
def smallLoop : List Char → Nat → BitArray → BitArray
  | [], _, acc => acc
  | c :: cs, pos, acc =>
    if c ≠ '0' then
      smallLoop cs (pos - 1) (addU32 acc (charVal c * 10 ^ pos % BLOCK_MOD))
    else smallLoop cs (pos - 1) acc

/-- `BitArray(std::string_view)`: split the digit string nine digits
from the end, run the large-digit loop on the front and the small-digit
loop on the back.  (Reached only with a nonempty string; `[]` yields the
default `[0]`.) -/
def baOfString (s : List Char) : BitArray :=
  match s with
  | [] => ⟨[0]⟩
  | _ =>
    let digitPos := s.length - 1
    let split := if 8 < digitPos then digitPos - 8 else 0
    let acc1 := if s.take split ≠ [] then largeLoop (s.take split) digitPos ⟨[0]⟩ 1 else ⟨[0]⟩
    smallLoop (s.drop split) (digitPos - split) acc1

/-- The output of `Float::parseString`. -/
structure ParsedF where
  whole : List Char
  dec : List Char
  exp : List Char
  sign : Bool
deriving DecidableEq, Repr

/-- `Float::parseString`: split at the first '.' and the first LOWERCASE
'e'.  The whole part skips the leading character only when it is '-'
(the sign flag, POSITIVE = 0, is used as the offset, so '+' offsets
nothing), and when neither '.' nor 'e' occurs the whole part is the
whole input, sign included.  Trailing zeros of the decimal part are
stripped.  When 'e' precedes '.', the `size_t` count
`(e_pos - dot_pos) - 1` underflows and `substr` clamps, so the decimal
part runs to the end of the input. -/
def parseStringF (s : List Char) : ParsedF :=
  let sign : Bool := match s with
    | [] => POSITIVE
    | c :: _ => decide (c = '-')
  let sn := if sign then 1 else 0
  let dotPos := findChar s '.'
  let ePos := findChar s 'e'
  let (whole, dec0) :=
    match dotPos, ePos with
    | some d, some e =>
      ((s.drop sn).take (d - sn),
       if d < e then (s.drop (d + 1)).take (e - d - 1) else s.drop (d + 1))
    | some d, none => ((s.drop sn).take (d - sn), s.drop (d + 1))
    | none, some e => ((s.drop sn).take (e - sn), [])
    | none, none => (s, [])
  let dec :=
    if dec0 ≠ [] then
      match (dec0.reverse.dropWhile (· == '0')).reverse with
      | [] => if dec0.headD 'x' = '0' then [] else dec0
      | r => r
    else dec0
  let exp :=
    match ePos with
    | some e => s.drop (e + 1)
    | none => []
  ⟨whole, dec, exp, sign⟩

/-- `Float::isNumber`: the empty view is accepted; one leading '+' or
'-' is skipped; every remaining character must be a digit. -/
def isNumberF : List Char → Bool
  | [] => true
  | c :: cs => if c = '-' ∨ c = '+' then cs.all isDigitChar else (c :: cs).all isDigitChar

/-- Reinterpret a 32-bit pattern as the int32 it stores. -/
def toInt32 (x : Nat) : Int :=
  if x < 2 ^ 31 then (x : Int) else (x : Int) - (BLOCK_MOD : Int)

/-- Digit loop of `Float::stringToInt`: `result += uint32(c - '0') *
uint32(pow(10, pos))`, all arithmetic mod 2^32 (the pow-and-cast is
exact for the exponent lengths that occur; a cast of an out-of-range
double is undefined in C++ and modelled as mod 2^32). -/
def s2iLoop : List Char → Nat → Nat → Nat
  | [], _, acc => acc
  | c :: cs, pos, acc =>
    if c ≠ '0' then
      s2iLoop cs (pos - 1) ((acc + charVal c * (10 ^ pos % BLOCK_MOD) % BLOCK_MOD) % BLOCK_MOD)
    else s2iLoop cs (pos - 1) acc

/-- `Float::stringToInt`: optional sign, digit accumulation into an
int32 result, negation for '-'. -/
def stringToIntF (s : List Char) : Int :=
  match s with
  | [] => 0
  | _ =>
    let (neg, s') :=
      match s with
      | '+' :: r => (false, r)
      | '-' :: r => (true, r)
      | _ => (false, s)
    (if neg then -1 else 1) * toInt32 (s2iLoop s' (s'.length - 1) 0)

/-- `Float::shiftStrings` (faithful to the source, including the branch
that rebuilds the whole part from the DECIMAL string when the negative
exponent is smaller than the whole part): textually move the decimal
point by `exp` places, padding with zeros. -/
def shiftStringsF (whole dec : List Char) (exp : Int) : List Char × List Char :=
  if 0 < exp then
    let e := exp.toNat
    if e < dec.length then (whole ++ dec.take e, dec.drop e)
    else (whole ++ dec ++ List.replicate (e - dec.length) '0', [])
  else
    let e := exp.natAbs
    if e < whole.length then (dec.take e, whole.drop e ++ dec)
    else ([], List.replicate (e - whole.length) '0' ++ whole ++ dec)

/-- The binary-fraction loop of the string constructor: while the
decimal remainder is non-zero and fewer than
`CONSTRUCTOR_MAX_ITERATIONS * len` bits were produced, double mantissa
and remainder and emit one mantissa bit.  The fuel is the iteration
bound plus one, so it can never be exhausted. -/
def fracLoop : Nat → BitArray → BitArray → BitArray → Nat → Nat → BitArray × Nat
  | 0, m, _, _, shift, _ => (m, shift)
  | fuel + 1, m, decs, one, shift, bound =>
    if cmpU32 decs 0 ≠ .eq ∧ shift < bound then
      let m1 := shlBA m 1
      let d1 := shlBA decs 1
      if cmpBA d1 one = .lt then
        fracLoop fuel (setBitBA m1 0 false) d1 one (shift + 1) bound
      else
        fracLoop fuel (setBitBA m1 0 true) (subBA d1 one) one (shift + 1) bound
    else (m, shift)

/-- `Float::Float(std::string_view)`: parse, validate the three parts
with `isNumber` (state ERROR as soon as one fails, the sign already
assigned), apply a non-zero exponent by shifting the strings, build the
whole-part mantissa with the BitArray string constructor, extend it with
the bounded binary-fraction loop, right-align. -/
def floatOfString (s : List Char) : FloatAP :=
  let p := parseStringF s
  if ¬ (isNumberF p.exp = true) then ⟨⟨[0]⟩, 0, p.sign, .ERROR⟩
  else
    let exp := stringToIntF p.exp
    if ¬ (isNumberF p.whole = true ∧ isNumberF p.dec = true) then ⟨⟨[0]⟩, 0, p.sign, .ERROR⟩
    else
      let (w, d) := if exp ≠ 0 then shiftStringsF p.whole p.dec exp else (p.whole, p.dec)
      let m0 := if w ≠ [] then baOfString w else ⟨[0]⟩
      let (m1, sh1) :=
        if d ≠ [] then
          fracLoop (CONSTRUCTOR_MAX_ITERATIONS * d.length + 1) m0 (baOfString d)
            (baOfString ('1' :: List.replicate d.length '0')) 0
            (CONSTRUCTOR_MAX_ITERATIONS * d.length)
        else (m0, 0)
      let (m2, ra) := rightAlignBA m1
      ⟨m2, (sh1 : Int) - (ra : Int), p.sign, .NORMAL⟩

/-- A value whose state is not NORMAL is not one of the two zeros. -/
theorem isZeroF_false_of_not_normal (f : FloatAP) (h : f.state ≠ .NORMAL) :
    isZeroF f = false := by
  obtain ⟨m, sh, s, st⟩ := f
  cases st with
  | NORMAL => exact absurd rfl h
  | INF => rfl
  | ERROR => rfl

/-- A value passing the zero test has state NORMAL. -/
theorem state_of_isZeroF (f : FloatAP) (h : isZeroF f = true) :
    f.state = .NORMAL := by
  obtain ⟨m, sh, s, st⟩ := f
  cases st with
  | NORMAL => rfl
  | INF => exact Bool.noConfusion h
  | ERROR => exact Bool.noConfusion h

end AP

/-- C1: the claim states that `a -= b` always stores `|a0 - b0|`.  The
code loses the limb-1 carry of `operator+=(uint32_t)` (a bare 32-bit
`+=` drops its own overflow), so for a0 = 2^64 + 1 and b0 = 1 the stored
result is 0 instead of 2^64: the subtraction operator contradicts its own
documented absolute-difference contract. -/
theorem AP.C1_subtract_loses_carry :
    AP.baVal ⟨[1, 0, 1]⟩ = 2 ^ 64 + 1 ∧
    AP.baVal ⟨[1]⟩ = 1 ∧
    AP.baVal (AP.subBA ⟨[1, 0, 1]⟩ ⟨[1]⟩) = 0 ∧
    2 ^ 64 + 1 - 1 ≠ 0 := by
  decide

/-- C2: the claim asserts the accuracy contract
`|(a / b) * b - a| < a * 2^(-DIVISION_ACCURACY)` for every NORMAL `a` and
nonzero `b`.  The divide loop accumulates the quotient bit of every later
pass at bit 0 of `result` without shifting it, so for a = 1, b = 7 the
quotient mantissa computed is (2^50 + 3)/7 and the error of the round
trip is 3 * 2^(-50) — three times the contract bound (the contract also
fails trivially at a = 0, where its right side is 0). -/
theorem AP.C2_division_accuracy_violated :
    AP.divF AP.fOne AP.fSeven =
      ⟨⟨[613566757, 37449]⟩, 50, false, .NORMAL⟩ ∧
    |AP.fval (AP.mulF (AP.divF AP.fOne AP.fSeven) AP.fSeven) - AP.fval AP.fOne| =
      3 / 2 ^ 50 ∧
    ¬ (|AP.fval (AP.mulF (AP.divF AP.fOne AP.fSeven) AP.fSeven) - AP.fval AP.fOne| <
      AP.fval AP.fOne * (2 : ℚ) ^ (-(AP.DIVISION_ACCURACY : ℤ))) := by
  have hd : AP.divF AP.fOne AP.fSeven =
      ⟨⟨[613566757, 37449]⟩, 50, false, .NORMAL⟩ := by decide
  have hm : AP.mulF (⟨⟨[613566757, 37449]⟩, 50, false, .NORMAL⟩ : AP.FloatAP) AP.fSeven =
      ⟨⟨[3, 262144]⟩, 50, false, .NORMAL⟩ := by decide
  have hone : AP.fval AP.fOne = 1 := by
    norm_num [AP.fval, AP.baVal, AP.fOne, AP.POSITIVE, AP.BLOCK_MOD]
  have hv : AP.fval (⟨⟨[3, 262144]⟩, 50, false, .NORMAL⟩ : AP.FloatAP) = (2 ^ 50 + 3) / 2 ^ 50 := by
    norm_num [AP.fval, AP.baVal, AP.BLOCK_MOD]
  have habs : |AP.fval (AP.mulF (AP.divF AP.fOne AP.fSeven) AP.fSeven) - AP.fval AP.fOne| =
      3 / 2 ^ 50 := by
    rw [hd, hm, hv, hone]
    rw [abs_of_pos (by norm_num)]
    norm_num
  refine ⟨hd, habs, ?_⟩
  rw [habs, hone]
  norm_num [AP.DIVISION_ACCURACY]

/-- C3 counterexample: the claim states `+0 == -0` is true and that
neither zero is less than the other; the library's equality compares the
sign bits (it returns false), and its ordering puts `-0` strictly below
`+0`. -/
theorem AP.C3_signed_zero_comparison_counterexample :
    AP.eqF AP.posZeroF AP.negZeroF = false ∧
    AP.cmpF AP.negZeroF AP.posZeroF = AP.POrd.lt ∧
    AP.cmpF AP.posZeroF AP.negZeroF = AP.POrd.gt := by decide

/-- C3 amended: two canonical zeros (mantissa 0, shift 0, state NORMAL)
compare equal exactly when their sign bits agree; with different signs
the negative zero is strictly smaller (the sign decides before any
magnitude is examined). -/
theorem AP.C3_signed_zeros_compare_by_sign :
    ∀ s1 s2 : Bool,
      AP.eqF (AP.zeroOfSign s1) (AP.zeroOfSign s2) = decide (s1 = s2) ∧
      AP.cmpF (AP.zeroOfSign s1) (AP.zeroOfSign s2) =
        (if s1 = s2 then AP.POrd.eq
         else if s1 = AP.NEGATIVE then AP.POrd.lt else AP.POrd.gt) := by
  intro s1 s2
  cases s1 <;> cases s2 <;> exact ⟨rfl, rfl⟩

/-- C4: the claim states that for equal binary-point exponents and
negative sign the mantissa comparison is flipped (larger mantissa means
smaller value).  The code's final mantissa comparison is not flipped:
for -1.25 (mantissa 5, shift 2) and -1.75 (mantissa 7, shift 2), both of
equal exponent, it answers `-1.25 < -1.75` although the rational values
order the other way. -/
theorem AP.C4_negative_equal_exponent_tiebreak :
    AP.shiftToExponent AP.fNeg125 = AP.shiftToExponent AP.fNeg175 ∧
    AP.fval AP.fNeg175 < AP.fval AP.fNeg125 ∧
    AP.cmpF AP.fNeg125 AP.fNeg175 = AP.POrd.lt ∧
    AP.cmpF AP.fNeg175 AP.fNeg125 = AP.POrd.gt := by
  refine ⟨by decide, ?_, by decide, by decide⟩
  norm_num [AP.fval, AP.baVal, AP.BLOCK_MOD, AP.fNeg125, AP.fNeg175, AP.NEGATIVE]

/-- C5: an ERROR state on either operand of addition, subtraction,
multiplication or division forces an ERROR result, unconditionally, and
comparison with an ERROR operand is unordered. -/
theorem AP.C5_error_operand_propagates :
    ∀ a b : AP.FloatAP,
      (AP.addF { a with state := .ERROR } b).state = .ERROR ∧
      (AP.addF a { b with state := .ERROR }).state = .ERROR ∧
      (AP.subF { a with state := .ERROR } b).state = .ERROR ∧
      (AP.subF a { b with state := .ERROR }).state = .ERROR ∧
      (AP.mulF { a with state := .ERROR } b).state = .ERROR ∧
      (AP.mulF a { b with state := .ERROR }).state = .ERROR ∧
      (AP.divF { a with state := .ERROR } b).state = .ERROR ∧
      (AP.divF a { b with state := .ERROR }).state = .ERROR ∧
      AP.cmpF { a with state := .ERROR } b = .unordered ∧
      AP.cmpF a { b with state := .ERROR } = .unordered := by
  intro a b
  obtain ⟨ma, sha, sa, sta⟩ := a
  cases sta <;> exact ⟨rfl, rfl, rfl, rfl, rfl, rfl, rfl, rfl, rfl, rfl⟩

/-- C6: the special operands of division — a zero denominator under a
non-zero numerator yields INF with the XORed sign, INF / INF and 0 / 0
yield ERROR, and a finite numerator over an INF denominator yields the
positive zero with state NORMAL. -/
theorem AP.C6_division_special_operands :
    ∀ a b : AP.FloatAP,
      (a.state ≠ .ERROR → AP.isZeroF b = true → AP.isZeroF a = false →
        (AP.divF a b).state = .INF ∧ (AP.divF a b).sign = xor a.sign b.sign) ∧
      (a.state = .INF → b.state = .INF → (AP.divF a b).state = .ERROR) ∧
      (AP.isZeroF a = true → AP.isZeroF b = true → (AP.divF a b).state = .ERROR) ∧
      (a.state = .NORMAL → b.state = .INF → AP.divF a b = AP.posZeroF) := by
  intro a b
  refine ⟨?_, ?_, ?_, ?_⟩
  · intro h1 h2 h3
    have hb := AP.state_of_isZeroF b h2
    simp [AP.divF, h1, h2, h3, hb, AP.clearF]
  · intro h1 h2
    simp [AP.divF, h1, h2, AP.clearF]
  · intro h1 h2
    have ha := AP.state_of_isZeroF a h1
    have hb := AP.state_of_isZeroF b h2
    simp [AP.divF, h1, h2, ha, hb, AP.clearF]
  · intro h1 h2
    have hzb : AP.isZeroF b = false :=
      AP.isZeroF_false_of_not_normal b (by simp [h2])
    simp [AP.divF, h1, h2, hzb, AP.clearF]

/-- C6 witness: the four special cases evaluated at concrete operands —
1 / (+0), (+∞) / (+∞), (+0) / (-0) and 1 / (+∞). -/
theorem AP.C6_division_special_operands_witness :
    (AP.divF AP.fOne AP.posZeroF).state = .INF ∧
    (AP.divF AP.fOne AP.posZeroF).sign = xor false false ∧
    (AP.divF AP.fInfP AP.fInfP).state = .ERROR ∧
    (AP.divF AP.posZeroF AP.negZeroF).state = .ERROR ∧
    AP.divF AP.fOne AP.fInfP = AP.posZeroF :=
  ⟨((AP.C6_division_special_operands AP.fOne AP.posZeroF).1
      (by decide) (by decide) (by decide)).1,
   ((AP.C6_division_special_operands AP.fOne AP.posZeroF).1
      (by decide) (by decide) (by decide)).2,
   (AP.C6_division_special_operands AP.fInfP AP.fInfP).2.1 rfl rfl,
   (AP.C6_division_special_operands AP.posZeroF AP.negZeroF).2.2.1
      (by decide) (by decide),
   (AP.C6_division_special_operands AP.fOne AP.fInfP).2.2.2 rfl rfl⟩

/-- C8: the claim asserts `a + b = b + a` under the library's equality.
The carry dropped by `operator+=` (see C1) makes addition itself
asymmetric: (2^64 - 1) + 1 evaluates to 0 one way and to 2^64 the other
way, so the two sums are not equal — and one of them is not even the
mathematical sum. -/
theorem AP.C8_addition_commutativity_fails :
    AP.eqF (AP.addF AP.fMax64 AP.fOne) (AP.addF AP.fOne AP.fMax64) = false ∧
    AP.fval (AP.addF AP.fMax64 AP.fOne) = 0 ∧
    AP.fval (AP.addF AP.fOne AP.fMax64) = 2 ^ 64 ∧
    AP.fval AP.fMax64 + AP.fval AP.fOne = 2 ^ 64 := by
  have h1 : AP.addF AP.fMax64 AP.fOne = ⟨⟨[0]⟩, -64, false, .NORMAL⟩ := by decide
  have h2 : AP.addF AP.fOne AP.fMax64 = ⟨⟨[1]⟩, -64, false, .NORMAL⟩ := by decide
  refine ⟨by decide, ?_, ?_, ?_⟩
  · rw [h1]; norm_num [AP.fval, AP.baVal]
  · rw [h2]; norm_num [AP.fval, AP.baVal, AP.BLOCK_MOD]
  · norm_num [AP.fval, AP.baVal, AP.BLOCK_MOD, AP.fMax64, AP.fOne, AP.POSITIVE]

/-- C9: the claim states the right-alignment invariant: a NORMAL value
with zero mantissa has shift 0.  Subtracting 1.5 from itself leaves
mantissa 0 but keeps the aligned shift 1 (`rightAlign` returns 0 for a
zero mantissa and nothing resets the shift), violating the invariant. -/
theorem AP.C9_zero_result_keeps_shift :
    (AP.subF AP.fOneHalf3 AP.fOneHalf3).state = .NORMAL ∧
    AP.baVal (AP.subF AP.fOneHalf3 AP.fOneHalf3).mantissa = 0 ∧
    (AP.subF AP.fOneHalf3 AP.fOneHalf3).shift = 1 := by decide

/-- C10: `abs` returns its argument with the sign forced to POSITIVE and
the mantissa, shift and state fields untouched, whatever the state. -/
theorem AP.C10_abs_clears_only_sign :
    ∀ f : AP.FloatAP,
      (AP.absF f).sign = AP.POSITIVE ∧
      (AP.absF f).mantissa = f.mantissa ∧
      (AP.absF f).shift = f.shift ∧
      (AP.absF f).state = f.state :=
  fun _ => ⟨rfl, rfl, rfl, rfl⟩

/-- C7: the claim says state ERROR appears exactly when the input fails
the grammar `[+-]?[0-9]+(\.[0-9]*)?([eE][+-]?[0-9]+)?`.  The validator
disagrees in both directions: a standalone '-', the empty string and the
fractional-only ".5" (all outside the grammar) are accepted with state
NORMAL, while the uppercase exponent marker of "1E5" (inside the
grammar) is rejected with ERROR, because only the lowercase 'e' is
searched for. -/
theorem AP.C7_string_validation_divergence :
    (AP.floatOfString ['-']).state = .NORMAL ∧
    (AP.floatOfString []).state = .NORMAL ∧
    (AP.floatOfString ['.', '5']).state = .NORMAL ∧
    (AP.floatOfString ['1', 'E', '5']).state = .ERROR ∧
    (AP.floatOfString ['1', 'e', '5']).state = .NORMAL ∧
    (AP.floatOfString ['1', 'e', '5']).mantissa = ⟨[3125]⟩ ∧
    (AP.floatOfString ['1', 'e', '5']).shift = -5 := by decide
